import Mathlib

/-!
Shallow embedding of `src/ext/encryptors/rotn/rotn_encrypt.c` (the WiredTiger
"rotn" demonstration encryptor) and proofs about it.

Bytes are modelled as `Nat` values below 256; `size_t` arithmetic wraps at
`2 ^ 64` and `uint32_t` arithmetic at `2 ^ 32`, written explicitly where the
C code can wrap.  Fallible calls return a `CallResult` carrying the C return
value, the destination buffer contents after the call, and the value stored
through `result_lenp` (`none` when the code leaves it untouched).
-/

namespace RotN

/-- `CHKSUM_LEN` (rotn_encrypt.c line 82). -/
def CHKSUM_LEN : Nat := 4

/-- `IV_LEN` (rotn_encrypt.c line 83). -/
def IV_LEN : Nat := 16

/-- Linux errno value `ENOMEM`, returned by the out-of-space checks. -/
def ENOMEM : Nat := 12

/-- Linux errno value `EINVAL`, recorded by `rotn_customize` on invalid input. -/
def EINVAL : Nat := 22

/-- Linux errno value `EPERM`, returned by the `err` path of `rotn_customize`. -/
def EPERM : Nat := 1

/-- Modulus of `size_t` (64-bit) arithmetic. -/
def W64 : Nat := 2 ^ 64

/-- Modulus of `uint32_t` arithmetic. -/
def W32 : Nat := 2 ^ 32

/-- C `islower` on a byte, in the default C locale (ASCII). -/
def islower (c : Nat) : Bool := decide (97 ≤ c ∧ c ≤ 122)

/-- C `isupper` on a byte, in the default C locale (ASCII). -/
def isupper (c : Nat) : Bool := decide (65 ≤ c ∧ c ≤ 90)

/-- C `isalpha` on a byte, in the default C locale (ASCII). -/
def isalpha (c : Nat) : Bool := islower c || isupper c

/-- One byte of `do_rotate` (lines 133-140): alphabetic bytes are rotated by
`rotn` within their case; other bytes pass through.  In C the sum
`buf[i] - base + rotn` is computed in `uint32_t` (so modulo `2 ^ 32`) before
the `% 26`. -/
def rotateByte (rotn c : Nat) : Nat :=
  if isalpha c then
    if islower c then (c - 97 + rotn) % W32 % 26 + 97
    else (c - 65 + rotn) % W32 % 26 + 65
  else c

/-- `do_rotate` (lines 126-141): rot-N applied to every byte of the buffer.
Faithful for buffers shorter than `2 ^ 32`, where the `uint32_t` loop counter
does not wrap. -/
def do_rotate (rotn : Nat) (buf : List Nat) : List Nat :=
  buf.map (rotateByte rotn)

/-- Loop body of `do_shift`, carrying the running index `i`. -/
def do_shiftAux (shift : List Nat) (shiftlen : Nat) : Nat → List Nat → List Nat
  | _, [] => []
  | i, c :: rest =>
      (c + shift.getD (i % shiftlen) 0) % 256 :: do_shiftAux shift shiftlen (i + 1) rest

/-- `do_shift` (lines 147-156): `buf[i] += shift[i % shiftlen]` in `uint8_t`
arithmetic, applied to every byte.  Faithful for buffers shorter than
`2 ^ 32`, where the `uint32_t` loop counter does not wrap. -/
def do_shift (shift : List Nat) (shiftlen : Nat) (buf : List Nat) : List Nat :=
  do_shiftAux shift shiftlen 0 buf

/-- `ROTN_ENCRYPTOR` instance state (lines 69-79).  The `WT_ENCRYPTOR` header
and the `wt_api` handle carry no transform-relevant state and are omitted;
`keyid` and `secretkey` hold the stashed configuration strings as byte lists
(`none` when the corresponding pointer is NULL). -/
structure ROTN where
  rot_N : Nat
  keyid : Option (List Nat)
  secretkey : Option (List Nat)
  shift_forw : List Nat
  shift_back : List Nat
  shift_len : Nat
  deriving DecidableEq

/-- Observable outcome of one encrypt or decrypt call: the C return value,
the destination buffer contents after the call, and the value stored through
`result_lenp` (`none` when the code returns without writing it). -/
structure CallResult where
  ret : Nat
  dst : List Nat
  result_len : Option Nat
  deriving DecidableEq

/-- `uint32_t` subtraction `a - b`, used by `rotn_decrypt` for `26 - rot_N`. -/
def sub32 (a b : Nat) : Nat := (a + (W32 - b % W32)) % W32

/-- `rotn_encrypt` (lines 163-201).  `hdr` stands for the 20 random bytes that
`make_cksum` and `make_iv` write into `dst[0..20)`; `src = none` models a NULL
source pointer; `dst` is the destination buffer, whose length is `dst_len`.
The size check `dst_len < src_len + CHKSUM_LEN + IV_LEN` is `size_t`
arithmetic, hence the `% W64`. -/
def rotn_encrypt (e : ROTN) (hdr : List Nat) (src : Option (List Nat))
    (dst : List Nat) : CallResult :=
  match src with
  | none => ⟨0, dst, none⟩
  | some s =>
      if dst.length < (s.length + CHKSUM_LEN + IV_LEN) % W64 then ⟨ENOMEM, dst, none⟩
      else
        ⟨0,
         hdr ++
           (if e.shift_len = 0 then do_rotate e.rot_N s
            else do_shift e.shift_forw e.shift_len s) ++
           dst.drop (CHKSUM_LEN + IV_LEN + s.length),
         some dst.length⟩

/-- `rotn_decrypt` (lines 209-255).  The size check computes
`src_len - CHKSUM_LEN - IV_LEN` in `size_t` arithmetic, which wraps when
`src_len < 20`; faithful for `src_len < 2 ^ 64`.  The `memcpy` copies
`dst_len` bytes starting at `src[20]`; when the source has fewer than
`20 + dst_len` bytes the C code reads out of bounds, and the model fills the
unspecified tail with the destination buffer's previous bytes.  The
`fprintf(stderr, ...)` on the error path is an unmodelled side effect. -/
def rotn_decrypt (e : ROTN) (src : Option (List Nat)) (dst : List Nat) : CallResult :=
  match src with
  | none => ⟨0, dst, none⟩
  | some s =>
      if dst.length < (s.length + (W64 - CHKSUM_LEN - IV_LEN)) % W64 then ⟨ENOMEM, dst, none⟩
      else
        let body := (s.drop (CHKSUM_LEN + IV_LEN)).take dst.length ++
          dst.drop ((s.drop (CHKSUM_LEN + IV_LEN)).take dst.length).length
        ⟨0,
         (if e.shift_len = 0 then do_rotate (sub32 26 e.rot_N) body
          else do_shift e.shift_back e.shift_len body),
         some dst.length⟩

/-- `rotn_sizing` (lines 263-272): returns 0 and stores
`CHKSUM_LEN + IV_LEN` through `expansion_constantp`. -/
def rotn_sizing : Nat × Nat := (0, CHKSUM_LEN + IV_LEN)

/-- Shift-table entries built for one secret byte (lines 337-348): `base` is
`'a'` or `'A'`, `base -= keyid_val` wraps in `unsigned char`, and the stored
bytes are `secret[i] - base` and `base - secret[i]`, both reduced to
`unsigned char`.  `keyid_val` is the C `int`, hence `Int`. -/
def shiftPair (keyid_val : Int) (c : Nat) : Nat × Nat :=
  let base : Int := (((if islower c then 97 else 65) : Int) - keyid_val) % 256
  ((((c : Int) - base) % 256).toNat, (((base - (c : Int)) % 256).toNat))

/-- Shift-table builder loop of `rotn_customize` (lines 337-349): fails
(recording `EINVAL`) at the first secret byte that is neither lower nor upper
case, otherwise yields the forward and backward tables. -/
def buildShift (keyid_val : Int) : List Nat → Option (List Nat × List Nat)
  | [] => some ([], [])
  | c :: rest =>
      if isalpha c then
        match buildShift keyid_val rest with
        | none => none
        | some (fs, bs) =>
            some ((shiftPair keyid_val c).1 :: fs, (shiftPair keyid_val c).2 :: bs)
      else none

/-- The `err` path of `rotn_customize` (lines 363-374): frees the partially
allocated keyid, secretkey, shift tables and the instance, then returns
`EPERM` — the specific error recorded in `ret` (the argument) is discarded. -/
def customizeErr (_ret : Nat) : Nat := EPERM

/-- `rotn_customize` (lines 280-374).  Oracle parameters stand for the
environment: `callocOK` — whether the initial `calloc` of the instance
succeeds (on failure the code returns `errno` directly, line 297-298);
`errnoVal` — the value of `errno` when an allocation fails; `garbageVal` —
the `int` that `atoi(keyid.str)` yields at line 305, where the local `keyid`
item is still uninitialized (`config_get` fills it only at line 313), so this
value is unrelated to the configured keyid string; `keyidCfg` / `secretCfg` —
the `"keyid"` / `"secretkey"` configuration values (`none` for absent or a
`config_get` failure, which the code does not propagate); `mKeyid`,
`mSecret`, `mForw`, `mBack` — whether each later `malloc` succeeds.  On
success `rot_N` is `keyid_val` converted to `uint32_t`. -/
def rotn_customize (callocOK : Bool) (errnoVal : Nat) (garbageVal : Int)
    (keyidCfg secretCfg : Option (List Nat))
    (mKeyid mSecret mForw mBack : Bool) : Except Nat ROTN :=
  if callocOK = false then .error errnoVal
  else if garbageVal < 0 then .error (customizeErr EINVAL)
  else if keyidCfg.getD [] ≠ [] ∧ mKeyid = false then .error (customizeErr errnoVal)
  else if secretCfg.getD [] ≠ [] then
    if mSecret = false ∨ mForw = false ∨ mBack = false then .error (customizeErr errnoVal)
    else
      match buildShift garbageVal (secretCfg.getD []) with
      | none => .error (customizeErr EINVAL)
      | some (fs, bs) =>
          .ok ⟨garbageVal.toNat % W32,
               if keyidCfg.getD [] ≠ [] then keyidCfg else none,
               secretCfg, fs, bs, (secretCfg.getD []).length⟩
  else
    .ok ⟨garbageVal.toNat % W32,
         if keyidCfg.getD [] ≠ [] then keyidCfg else none,
         none, [], [], 0⟩

/-! ### Helper lemmas -/

theorem getD_map (f : Nat → Nat) (l : List Nat) (i : Nat) (h : i < l.length) :
    (l.map f).getD i 0 = f (l.getD i 0) := by
  induction l generalizing i with
  | nil => simp at h
  | cons a t ih =>
      cases i with
      | zero => simp
      | succ j =>
          simp only [List.map_cons, List.getD_cons_succ]
          exact ih j (by simpa using h)

theorem shiftPair_symm (k : Int) (c : Nat) :
    ((shiftPair k c).1 + (shiftPair k c).2) % 256 = 0 := by
  dsimp only [shiftPair]
  omega

theorem buildShift_symm (k : Int) (l fs bs : List Nat)
    (h : buildShift k l = some (fs, bs)) (i : Nat) :
    (fs.getD i 0 + bs.getD i 0) % 256 = 0 := by
  induction l generalizing fs bs i with
  | nil =>
      unfold buildShift at h
      cases h
      simp
  | cons c rest ih =>
      unfold buildShift at h
      by_cases ha : isalpha c = true
      · rw [if_pos ha] at h
        cases hrec : buildShift k rest with
        | none => rw [hrec] at h; cases h
        | some p =>
            obtain ⟨f1, b1⟩ := p
            rw [hrec] at h
            cases h
            cases i with
            | zero => simpa using shiftPair_symm k c
            | succ j => simpa using ih f1 b1 hrec j
      · rw [if_neg ha] at h; cases h

theorem buildShift_length (k : Int) (l fs bs : List Nat)
    (h : buildShift k l = some (fs, bs)) :
    fs.length = l.length ∧ bs.length = l.length := by
  induction l generalizing fs bs with
  | nil => unfold buildShift at h; cases h; simp
  | cons c rest ih =>
      unfold buildShift at h
      by_cases ha : isalpha c = true
      · rw [if_pos ha] at h
        cases hrec : buildShift k rest with
        | none => rw [hrec] at h; cases h
        | some p =>
            obtain ⟨f1, b1⟩ := p
            rw [hrec] at h
            cases h
            have := ih f1 b1 hrec
            simp [this.1, this.2]
      · rw [if_neg ha] at h; cases h

theorem do_shiftAux_length (sh : List Nat) (sl i : Nat) (b : List Nat) :
    (do_shiftAux sh sl i b).length = b.length := by
  induction b generalizing i with
  | nil => rfl
  | cons c rest ih => simp [do_shiftAux, ih]

theorem do_shift_length (sh : List Nat) (sl : Nat) (b : List Nat) :
    (do_shift sh sl b).length = b.length :=
  do_shiftAux_length sh sl 0 b

theorem do_rotate_length (n : Nat) (b : List Nat) :
    (do_rotate n b).length = b.length := by
  simp [do_rotate]

theorem do_shiftAux_inv (fs bs : List Nat) (sl : Nat)
    (hsym : ∀ j, (fs.getD j 0 + bs.getD j 0) % 256 = 0) :
    ∀ (i : Nat) (b : List Nat), (∀ c ∈ b, c < 256) →
      do_shiftAux bs sl i (do_shiftAux fs sl i b) = b := by
  intro i b
  induction b generalizing i with
  | nil => intro _; rfl
  | cons c rest ih =>
      intro hb
      have hc : c < 256 := hb c (by simp)
      have hrest : ∀ x ∈ rest, x < 256 := fun x hx => hb x (by simp [hx])
      simp only [do_shiftAux]
      rw [ih (i + 1) hrest]
      have h := hsym (i % sl)
      congr 1
      omega

theorem do_shift_inv (fs bs : List Nat) (sl : Nat)
    (hsym : ∀ j, (fs.getD j 0 + bs.getD j 0) % 256 = 0)
    (b : List Nat) (hb : ∀ c ∈ b, c < 256) :
    do_shift bs sl (do_shift fs sl b) = b :=
  do_shiftAux_inv fs bs sl hsym 0 b hb

theorem w32_lit : W32 = 4294967296 := by norm_num [W32]

theorem w64_lit : W64 = 18446744073709551616 := by norm_num [W64]

theorem sub32_of_le (n : Nat) (hn : n ≤ 26) : sub32 26 n = 26 - n := by
  unfold sub32
  rw [w32_lit]
  omega

theorem rotateByte_lower (n c : Nat) (h : islower c = true) :
    rotateByte n c = (c - 97 + n) % W32 % 26 + 97 := by
  unfold rotateByte isalpha
  rw [h]
  simp

theorem rotateByte_upper (n c : Nat) (h : isupper c = true) (h2 : islower c = false) :
    rotateByte n c = (c - 65 + n) % W32 % 26 + 65 := by
  unfold rotateByte isalpha
  rw [h, h2]
  simp

theorem rotateByte_other (n c : Nat) (h : isalpha c = false) :
    rotateByte n c = c := by
  unfold rotateByte
  rw [h]
  simp

theorem rotateByte_inverse (n c : Nat) (hn : n ≤ 25) (hc : c < 256) :
    rotateByte (26 - n) (rotateByte n c) = c := by
  by_cases hl : islower c = true
  · have hcb : 97 ≤ c ∧ c ≤ 122 := by simpa [islower] using hl
    rw [rotateByte_lower n c hl]
    have e1 : (c - 97 + n) % W32 = c - 97 + n := by
      rw [w32_lit]; omega
    rw [e1]
    have hl2 : islower ((c - 97 + n) % 26 + 97) = true := by
      simp only [islower, decide_eq_true_eq]
      omega
    rw [rotateByte_lower (26 - n) _ hl2]
    rw [w32_lit]
    omega
  · by_cases hu : isupper c = true
    · have hcb : 65 ≤ c ∧ c ≤ 90 := by simpa [isupper] using hu
      rw [rotateByte_upper n c hu (by simpa using hl)]
      have e1 : (c - 65 + n) % W32 = c - 65 + n := by
        rw [w32_lit]; omega
      rw [e1]
      have hu2 : isupper ((c - 65 + n) % 26 + 65) = true := by
        simp only [isupper, decide_eq_true_eq]
        omega
      have hl2 : islower ((c - 65 + n) % 26 + 65) = false := by
        simp only [islower, decide_eq_false_iff_not, not_and]
        omega
      rw [rotateByte_upper (26 - n) _ hu2 hl2]
      rw [w32_lit]
      omega
    · have ha : isalpha c = false := by
        simp [isalpha, Bool.or_eq_false_iff, Bool.not_eq_true] at *
        exact ⟨by simpa using hl, by simpa using hu⟩
      rw [rotateByte_other n c ha, rotateByte_other (26 - n) c ha]

theorem do_rotate_inv (n : Nat) (b : List Nat) (hn : n ≤ 25)
    (hb : ∀ c ∈ b, c < 256) :
    do_rotate (26 - n) (do_rotate n b) = b := by
  induction b with
  | nil => rfl
  | cons c rest ih =>
      simp only [do_rotate, List.map_cons] at *
      rw [rotateByte_inverse n c hn (hb c (by simp))]
      have := ih (fun x hx => hb x (by simp [hx]))
      simpa using this

theorem rotn_encrypt_some (e : ROTN) (hdr s dst : List Nat) :
    rotn_encrypt e hdr (some s) dst =
      if dst.length < (s.length + CHKSUM_LEN + IV_LEN) % W64 then ⟨ENOMEM, dst, none⟩
      else
        ⟨0,
         hdr ++
           (if e.shift_len = 0 then do_rotate e.rot_N s
            else do_shift e.shift_forw e.shift_len s) ++
           dst.drop (CHKSUM_LEN + IV_LEN + s.length),
         some dst.length⟩ := rfl

theorem rotn_decrypt_some (e : ROTN) (s dst : List Nat) :
    rotn_decrypt e (some s) dst =
      if dst.length < (s.length + (W64 - CHKSUM_LEN - IV_LEN)) % W64 then ⟨ENOMEM, dst, none⟩
      else
        ⟨0,
         (if e.shift_len = 0 then
            do_rotate (sub32 26 e.rot_N)
              ((s.drop (CHKSUM_LEN + IV_LEN)).take dst.length ++
               dst.drop ((s.drop (CHKSUM_LEN + IV_LEN)).take dst.length).length)
          else
            do_shift e.shift_back e.shift_len
              ((s.drop (CHKSUM_LEN + IV_LEN)).take dst.length ++
               dst.drop ((s.drop (CHKSUM_LEN + IV_LEN)).take dst.length).length)),
         some dst.length⟩ := rfl

theorem rotateByte_case (rotn c : Nat) :
    islower (rotateByte rotn c) = islower c ∧
    isupper (rotateByte rotn c) = isupper c ∧
    (isalpha c = true ∨ rotateByte rotn c = c) := by
  by_cases hl : islower c = true
  · have hcb : 97 ≤ c ∧ c ≤ 122 := by simpa [islower] using hl
    rw [rotateByte_lower rotn c hl]
    have h26 : (c - 97 + rotn) % W32 % 26 < 26 := Nat.mod_lt _ (by norm_num)
    refine ⟨?_, ?_, Or.inl (by simp [isalpha, hl])⟩
    · rw [hl]
      simp only [islower, decide_eq_true_eq]
      omega
    · have h1 : isupper c = false := by
        simp only [isupper, decide_eq_false_iff_not, not_and]
        omega
      have h2 : isupper ((c - 97 + rotn) % W32 % 26 + 97) = false := by
        simp only [isupper, decide_eq_false_iff_not, not_and]
        omega
      rw [h1, h2]
  · by_cases hu : isupper c = true
    · have hcb : 65 ≤ c ∧ c ≤ 90 := by simpa [isupper] using hu
      rw [rotateByte_upper rotn c hu (by simpa using hl)]
      have h26 : (c - 65 + rotn) % W32 % 26 < 26 := Nat.mod_lt _ (by norm_num)
      refine ⟨?_, ?_, Or.inl (by simp [isalpha, hu])⟩
      · have h1 : islower c = false := by simpa using hl
        have h2 : islower ((c - 65 + rotn) % W32 % 26 + 65) = false := by
          simp only [islower, decide_eq_false_iff_not, not_and]
          omega
        rw [h1, h2]
      · rw [hu]
        simp only [isupper, decide_eq_true_eq]
        omega
    · have ha : isalpha c = false := by
        simp only [isalpha, Bool.or_eq_false_iff]
        exact ⟨by simpa using hl, by simpa using hu⟩
      rw [rotateByte_other rotn c ha]
      exact ⟨rfl, rfl, Or.inr rfl⟩

theorem codec_roundtrip_core (e : ROTN) (b hdr dst0 dst1 cipher : List Nat)
    (hcipher : (if e.shift_len = 0 then do_rotate e.rot_N b
                else do_shift e.shift_forw e.shift_len b) = cipher)
    (hclen : cipher.length = b.length)
    (hdec : (if e.shift_len = 0 then do_rotate (sub32 26 e.rot_N) cipher
             else do_shift e.shift_back e.shift_len cipher) = b)
    (hhdr : hdr.length = 20)
    (h0 : dst0.length = b.length + 20)
    (h1 : dst1.length = b.length)
    (hfit : b.length + 20 < W64) :
    (rotn_encrypt e hdr (some b) dst0).ret = 0 ∧
    rotn_decrypt e (some (rotn_encrypt e hdr (some b) dst0).dst) dst1 =
      ⟨0, b, some b.length⟩ := by
  have hm : (b.length + CHKSUM_LEN + IV_LEN) % W64 = b.length + 20 := by
    simp only [CHKSUM_LEN, IV_LEN]
    rw [w64_lit] at hfit ⊢
    omega
  have hnot : ¬ dst0.length < (b.length + CHKSUM_LEN + IV_LEN) % W64 := by
    rw [hm]
    omega
  have hdrop0 : dst0.drop (CHKSUM_LEN + IV_LEN + b.length) = [] := by
    apply List.drop_eq_nil_of_le
    simp only [CHKSUM_LEN, IV_LEN]
    omega
  have henc : rotn_encrypt e hdr (some b) dst0 = ⟨0, hdr ++ cipher, some dst0.length⟩ := by
    rw [rotn_encrypt_some, if_neg hnot, hcipher, hdrop0, List.append_nil]
  rw [henc]
  refine ⟨rfl, ?_⟩
  have hslen : (hdr ++ cipher).length = 20 + b.length := by
    simp [hhdr, hclen]
  have hm2 : ((hdr ++ cipher).length + (W64 - CHKSUM_LEN - IV_LEN)) % W64 = b.length := by
    rw [hslen]
    simp only [CHKSUM_LEN, IV_LEN]
    rw [w64_lit] at hfit ⊢
    omega
  have hnot2 : ¬ dst1.length < ((hdr ++ cipher).length + (W64 - CHKSUM_LEN - IV_LEN)) % W64 := by
    rw [hm2]
    omega
  have hdrop2 : (hdr ++ cipher).drop (CHKSUM_LEN + IV_LEN) = cipher := by
    have h20 : CHKSUM_LEN + IV_LEN = hdr.length := by rw [hhdr]; rfl
    rw [h20, List.drop_left]
  have htake : cipher.take dst1.length = cipher := by
    rw [h1, ← hclen, List.take_length]
  have hdrop3 : dst1.drop cipher.length = [] := by
    apply List.drop_eq_nil_of_le
    omega
  rw [rotn_decrypt_some, if_neg hnot2, hdrop2, htake, hdrop3, List.append_nil, hdec, h1]

theorem rotn_customize_secret_inv (errnoVal : Nat) (g : Int) (s : List Nat) (inst : ROTN)
    (hg : 0 ≤ g) (hs : s ≠ [])
    (h : rotn_customize true errnoVal g none (some s) true true true true = .ok inst) :
    ∃ fs bs, buildShift g s = some (fs, bs) ∧
      inst = ⟨g.toNat % W32, none, some s, fs, bs, s.length⟩ := by
  unfold rotn_customize at h
  rw [if_neg (by simp)] at h
  rw [if_neg (by omega)] at h
  rw [if_neg (by simp)] at h
  rw [if_pos (by simpa using hs)] at h
  rw [if_neg (by simp)] at h
  cases hbs : buildShift g ((some s).getD []) with
  | none => rw [hbs] at h; cases h
  | some p =>
      obtain ⟨fs, bs⟩ := p
      rw [hbs] at h
      cases h
      refine ⟨fs, bs, by simpa using hbs, ?_⟩
      simp

/-! ### Claim theorems -/

/-- C1: rotation-mode round trip.  For every buffer `b` of printable bytes and
every rotation amount `n` in `[0, 25]`, decrypting the result of encrypting
`b` under an instance with rotation amount `n` and no secret configured
yields `b` again; decrypt applies `do_rotate` with `26 - n` to the bytes
after the 20-byte header. -/
theorem rotation_mode_roundtrip (b hdr dst0 dst1 : List Nat) (n : Nat)
    (hprint : ∀ c ∈ b, 32 ≤ c ∧ c ≤ 126) (hn : n ≤ 25)
    (hhdr : hdr.length = 20) (h0 : dst0.length = b.length + 20)
    (h1 : dst1.length = b.length) (hfit : b.length + 20 < W64) :
    (rotn_encrypt ⟨n, none, none, [], [], 0⟩ hdr (some b) dst0).ret = 0 ∧
    rotn_decrypt ⟨n, none, none, [], [], 0⟩
        (some (rotn_encrypt ⟨n, none, none, [], [], 0⟩ hdr (some b) dst0).dst) dst1 =
      ⟨0, b, some b.length⟩ := by
  have hb : ∀ c ∈ b, c < 256 := fun c hc => lt_of_le_of_lt (hprint c hc).2 (by norm_num)
  apply codec_roundtrip_core ⟨n, none, none, [], [], 0⟩ b hdr dst0 dst1 (do_rotate n b)
    _ (do_rotate_length n b) _ hhdr h0 h1 hfit
  · rfl
  · show do_rotate (sub32 26 n) (do_rotate n b) = b
    rw [sub32_of_le n (by omega)]
    exact do_rotate_inv n b hn hb

/-- Witness for C1 at `b = "Hello"`, `n = 13`. -/
theorem rotation_mode_roundtrip_witness :
    (rotn_encrypt ⟨13, none, none, [], [], 0⟩ (List.replicate 20 1)
        (some [72, 101, 108, 108, 111]) (List.replicate 25 0)).ret = 0 ∧
    rotn_decrypt ⟨13, none, none, [], [], 0⟩
        (some (rotn_encrypt ⟨13, none, none, [], [], 0⟩ (List.replicate 20 1)
          (some [72, 101, 108, 108, 111]) (List.replicate 25 0)).dst)
        (List.replicate 5 0) =
      ⟨0, [72, 101, 108, 108, 111], some 5⟩ :=
  rotation_mode_roundtrip [72, 101, 108, 108, 111] (List.replicate 20 1)
    (List.replicate 25 0) (List.replicate 5 0) 13 (by decide) (by decide) (by decide)
    (by decide) (by decide) (by decide)

/-- C4 counterexample: with source `[65]` (one byte) and an oversized
destination of 22 bytes (so `dst_len ≥ src_len + 20` holds), encrypt succeeds
but reports a written length of 22, not `len(b) + 20 = 21`: the code stores
`dst_len`, not `src_len + 20`, through `result_lenp` (line 199). -/
theorem length_law_counterexample :
    (rotn_encrypt ⟨0, none, none, [], [], 0⟩ (List.replicate 20 0) (some [65])
        (List.replicate 22 0)).ret = 0 ∧
    (rotn_encrypt ⟨0, none, none, [], [], 0⟩ (List.replicate 20 0) (some [65])
        (List.replicate 22 0)).result_len = some 22 ∧
    (22 : Nat) ≠ 1 + 20 := by
  refine ⟨rfl, rfl, by decide⟩

/-- C4 amended: a successful encrypt reports a written length equal to
`dst_len` (hence `len(b) + 20` exactly when the destination is exactly
sized), and the sizing operation always reports an expansion constant of
`CHKSUM_LEN + IV_LEN = 20`. -/
theorem length_law_amended (e : ROTN) (hdr b dst : List Nat)
    (hne : b ≠ []) (hfit : b.length + 20 < W64) (hge : b.length + 20 ≤ dst.length) :
    (rotn_encrypt e hdr (some b) dst).ret = 0 ∧
    (rotn_encrypt e hdr (some b) dst).result_len = some dst.length ∧
    rotn_sizing = (0, 20) := by
  have hm : (b.length + CHKSUM_LEN + IV_LEN) % W64 = b.length + 20 := by
    simp only [CHKSUM_LEN, IV_LEN]
    rw [w64_lit] at hfit ⊢
    omega
  have hnot : ¬ dst.length < (b.length + CHKSUM_LEN + IV_LEN) % W64 := by
    rw [hm]
    omega
  rw [rotn_encrypt_some, if_neg hnot]
  exact ⟨rfl, rfl, rfl⟩

/-- Witness for C4 amended at `b = [65]` with an exactly sized destination. -/
theorem length_law_amended_witness :
    (rotn_encrypt ⟨0, none, none, [], [], 0⟩ (List.replicate 20 0) (some [65])
        (List.replicate 21 0)).ret = 0 ∧
    (rotn_encrypt ⟨0, none, none, [], [], 0⟩ (List.replicate 20 0) (some [65])
        (List.replicate 21 0)).result_len = some 21 ∧
    rotn_sizing = (0, 20) :=
  length_law_amended ⟨0, none, none, [], [], 0⟩ (List.replicate 20 0) [65]
    (List.replicate 21 0) (by decide) (by decide) (by decide)

/-- C5: case preservation in rotation mode.  At every position of the buffer,
`do_rotate` maps lowercase bytes to lowercase bytes, uppercase bytes to
uppercase bytes (the case classification is preserved exactly), and every
non-alphabetic byte is left byte-identical. -/
theorem rotation_case_preservation (rotn : Nat) (buf : List Nat) (i : Nat)
    (hi : i < buf.length) :
    islower ((do_rotate rotn buf).getD i 0) = islower (buf.getD i 0) ∧
    isupper ((do_rotate rotn buf).getD i 0) = isupper (buf.getD i 0) ∧
    (isalpha (buf.getD i 0) = true ∨ (do_rotate rotn buf).getD i 0 = buf.getD i 0) := by
  have hmap : (do_rotate rotn buf).getD i 0 = rotateByte rotn (buf.getD i 0) :=
    getD_map (rotateByte rotn) buf i hi
  rw [hmap]
  exact rotateByte_case rotn (buf.getD i 0)

/-- Witness for C5 at `buf = [72, 101, 33]` (upper, lower, non-alphabetic),
`rotn = 13`, position 0. -/
theorem rotation_case_preservation_witness :
    islower ((do_rotate 13 [72, 101, 33]).getD 0 0) = islower ([72, 101, 33].getD 0 0) ∧
    isupper ((do_rotate 13 [72, 101, 33]).getD 0 0) = isupper ([72, 101, 33].getD 0 0) ∧
    (isalpha ([72, 101, 33].getD 0 0) = true ∨
      (do_rotate 13 [72, 101, 33]).getD 0 0 = [72, 101, 33].getD 0 0) :=
  rotation_case_preservation 13 [72, 101, 33] 0 (by decide)

/-- C6 evaluation at the failing input: with the configured keyid string
`"-1"` (bytes `[45, 49]`), no secret, all allocations succeeding, and the
`atoi` of the uninitialized `keyid` item yielding 0, `rotn_customize`
SUCCEEDS and returns an instance with `rot_N = 0` — the configured keyid is
never parsed or validated, because line 305 reads `keyid.str` before
`config_get` fills `keyid` at line 313. -/
theorem customize_ignores_configured_keyid :
    rotn_customize true 12 0 (some [45, 49]) none true true true true =
      .ok ⟨0, some [45, 49], none, [], [], 0⟩ := rfl

/-- C7 evaluation at the failing input: customizing with `keyid_val = 2` and
secret `"ABC"` (bytes `[65, 66, 67]`) builds the forward table `[2, 3, 4]`,
and encrypting `"MySecret"` (`[77, 121, 83, 101, 99, 114, 101, 116]`) puts
`[79, 124, 87, 103, 102, 118, 103, 119]` after the 20-byte header: byte 1 is
124 (the non-letter |), not 98 (b), because `do_shift` adds modulo 256 with
no alphabetic wrap-around — so the ciphertext differs from the documented
`"ObWgfvgw"` (`[79, 98, 87, 103, 102, 118, 103, 119]`). -/
theorem vigenere_scenario_diverges :
    rotn_customize true 12 2 none (some [65, 66, 67]) true true true true =
      .ok ⟨2, none, some [65, 66, 67], [2, 3, 4], [254, 253, 252], 3⟩ ∧
    (rotn_encrypt ⟨2, none, some [65, 66, 67], [2, 3, 4], [254, 253, 252], 3⟩
        (List.replicate 20 0) (some [77, 121, 83, 101, 99, 114, 101, 116])
        (List.replicate 28 0)).dst.drop 20 =
      [79, 124, 87, 103, 102, 118, 103, 119] ∧
    [79, 124, 87, 103, 102, 118, 103, 119] ≠ [79, 98, 87, 103, 102, 118, 103, 119] := by
  refine ⟨rfl, by decide, by decide⟩

/-- C8 counterexample: decrypt with a non-NULL source of length zero is NOT a
successful no-op — the `size_t` check `dst_len < src_len - 20` wraps and the
call fails with `ENOMEM` (here with an empty destination as well). -/
theorem empty_source_not_noop :
    (rotn_decrypt ⟨13, none, none, [], [], 0⟩ (some []) ([] : List Nat)).ret = ENOMEM ∧
    ENOMEM ≠ 0 := by
  refine ⟨by decide, by decide⟩

/-- C8 amended: only an ABSENT (NULL) source pointer makes encrypt and
decrypt succeed as no-ops — return value 0, destination untouched, and
`result_lenp` never written.  A non-NULL empty source is not a no-op: encrypt
still writes the 20 header bytes (or fails when `dst_len < 20`), and decrypt
always fails with `ENOMEM` because `src_len - 20` wraps in `size_t`. -/
theorem null_source_noop (e : ROTN) (hdr dst : List Nat) :
    rotn_encrypt e hdr none dst = ⟨0, dst, none⟩ ∧
    rotn_decrypt e none dst = ⟨0, dst, none⟩ :=
  ⟨rfl, rfl⟩

/-- C10: short-source decrypt rejection via unsigned arithmetic.  For every
non-null source with `0 < src_len < 20`, the `size_t` subtraction
`src_len - CHKSUM_LEN - IV_LEN` wraps to at least `2 ^ 64 - 19`, so decrypt
returns `ENOMEM` (leaving the destination untouched) for every destination
length below that wrapped value — in particular for every destination that
can exist, since `dst_len < 2 ^ 64 - 19` always holds in practice. -/
theorem short_source_decrypt_rejected (e : ROTN) (s dst : List Nat)
    (h0 : 0 < s.length) (h1 : s.length < 20) (hd : dst.length < W64 - 19) :
    W64 - 19 ≤ (s.length + (W64 - CHKSUM_LEN - IV_LEN)) % W64 ∧
    rotn_decrypt e (some s) dst = ⟨ENOMEM, dst, none⟩ := by
  have hm : (s.length + (W64 - CHKSUM_LEN - IV_LEN)) % W64 = s.length + (W64 - 20) := by
    simp only [CHKSUM_LEN, IV_LEN]
    rw [w64_lit]
    omega
  constructor
  · rw [hm, w64_lit]
    rw [w64_lit] at hd
    omega
  · rw [rotn_decrypt_some, if_pos]
    rw [hm]
    rw [w64_lit] at hd ⊢
    omega

/-- Witness for C10 at a 3-byte source and empty destination. -/
theorem short_source_decrypt_rejected_witness :
    W64 - 19 ≤ ((3 : Nat) + (W64 - CHKSUM_LEN - IV_LEN)) % W64 ∧
    rotn_decrypt ⟨0, none, none, [], [], 0⟩ (some [1, 2, 3]) [] =
      ⟨ENOMEM, [], none⟩ :=
  short_source_decrypt_rejected ⟨0, none, none, [], [], 0⟩ [1, 2, 3] []
    (by decide) (by decide) (by decide)

/-- C2: shift-mode round trip.  For every key value `g` in `[0, 25]` and
alphabetic secret `s` of 1 to 64 bytes from which customize derived the shift
tables, and every byte buffer `b` of at most 4096 bytes, decrypting (with the
backward table) the result of encrypting `b` (with the forward table) yields
`b` again. -/
theorem shift_mode_roundtrip (g : Int) (s b hdr dst0 dst1 : List Nat) (inst : ROTN)
    (hg : 0 ≤ g ∧ g ≤ 25)
    (hinst : rotn_customize true 12 g none (some s) true true true true = .ok inst)
    (hslen : 1 ≤ s.length ∧ s.length ≤ 64)
    (hb : ∀ c ∈ b, c < 256) (hblen : b.length ≤ 4096)
    (hhdr : hdr.length = 20) (h0 : dst0.length = b.length + 20)
    (h1 : dst1.length = b.length) :
    (rotn_encrypt inst hdr (some b) dst0).ret = 0 ∧
    rotn_decrypt inst (some (rotn_encrypt inst hdr (some b) dst0).dst) dst1 =
      ⟨0, b, some b.length⟩ := by
  have hsne : s ≠ [] := by
    intro he
    rw [he] at hslen
    simp at hslen
  obtain ⟨fs, bs, hbs, hinst_eq⟩ :=
    rotn_customize_secret_inv 12 g s inst hg.1 hsne hinst
  subst hinst_eq
  have hfit : b.length + 20 < W64 := by
    rw [w64_lit]
    omega
  have hsym := buildShift_symm g s fs bs hbs
  have hlen0 : ¬ s.length = 0 := by
    intro he
    omega
  refine codec_roundtrip_core _ b hdr dst0 dst1 (do_shift fs s.length b)
    ?_ (do_shift_length fs s.length b) ?_ hhdr h0 h1 hfit
  · dsimp only
    rw [if_neg hlen0]
  · dsimp only
    rw [if_neg hlen0]
    exact do_shift_inv fs bs s.length hsym b hb

/-- Witness for C2 at `g = 2`, `s = "ABC"`, `b = "MySecret"`. -/
theorem shift_mode_roundtrip_witness :
    (rotn_encrypt ⟨2, none, some [65, 66, 67], [2, 3, 4], [254, 253, 252], 3⟩
        (List.replicate 20 7) (some [77, 121, 83, 101, 99, 114, 101, 116])
        (List.replicate 28 0)).ret = 0 ∧
    rotn_decrypt ⟨2, none, some [65, 66, 67], [2, 3, 4], [254, 253, 252], 3⟩
        (some (rotn_encrypt ⟨2, none, some [65, 66, 67], [2, 3, 4], [254, 253, 252], 3⟩
          (List.replicate 20 7) (some [77, 121, 83, 101, 99, 114, 101, 116])
          (List.replicate 28 0)).dst)
        (List.replicate 8 0) =
      ⟨0, [77, 121, 83, 101, 99, 114, 101, 116], some 8⟩ :=
  shift_mode_roundtrip 2 [65, 66, 67] [77, 121, 83, 101, 99, 114, 101, 116]
    (List.replicate 20 7) (List.replicate 28 0) (List.replicate 8 0)
    ⟨2, none, some [65, 66, 67], [2, 3, 4], [254, 253, 252], 3⟩
    (by decide) rfl (by decide) (by decide) (by decide) (by decide) (by decide) (by decide)

/-- C3: shift-table symmetry invariant.  For every instance successfully
built by `rotn_customize`, and every position `i` below the table length (the
length of the secret), `shift_forw[i] + shift_back[i]` is congruent to 0
modulo 256. -/
theorem customize_table_symmetry (callocOK : Bool) (errnoVal : Nat) (g : Int)
    (kc sc : Option (List Nat)) (m1 m2 m3 m4 : Bool) (inst : ROTN) (i : Nat)
    (h : rotn_customize callocOK errnoVal g kc sc m1 m2 m3 m4 = .ok inst)
    (hi : i < inst.shift_len) :
    (inst.shift_forw.getD i 0 + inst.shift_back.getD i 0) % 256 = 0 := by
  unfold rotn_customize at h
  cases hbs : buildShift g (sc.getD []) with
  | none =>
      rw [hbs] at h
      split_ifs at h <;> cases h <;> simp at hi
  | some p =>
      obtain ⟨fs, bs⟩ := p
      rw [hbs] at h
      split_ifs at h <;> cases h <;>
        simpa using buildShift_symm g (sc.getD []) fs bs hbs i

/-- Witness for C3 at keyid value 2 and secret `"ABC"`, position 0. -/
theorem customize_table_symmetry_witness :
    (((⟨2, some [50], some [65, 66, 67], [2, 3, 4], [254, 253, 252], 3⟩ : ROTN).shift_forw.getD 0 0 +
      (⟨2, some [50], some [65, 66, 67], [2, 3, 4], [254, 253, 252], 3⟩ : ROTN).shift_back.getD 0 0) % 256) = 0 :=
  customize_table_symmetry true 12 2 (some [50]) (some [65, 66, 67]) true true true true
    ⟨2, some [50], some [65, 66, 67], [2, 3, 4], [254, 253, 252], 3⟩ 0 rfl (by decide)

/-- C9 counterexample: when the initial `calloc` of the instance fails with
`errno = ENOMEM`, `rotn_customize` returns errno (lines 297-298), not
`EPERM` — so the claim that EVERY failure returns EPERM is false. -/
theorem customize_calloc_failure_errno :
    rotn_customize false ENOMEM 0 none none true true true true = .error ENOMEM ∧
    ENOMEM ≠ EPERM :=
  ⟨rfl, by decide⟩

/-- C9 amended: every failure of `rotn_customize` after the initial `calloc`
succeeded — negative parsed keyid, non-alphabetic secret byte, or failure of
a later `malloc` — takes the `err` path, which frees every partially
allocated per-instance resource and returns `EPERM`, discarding the `EINVAL`
or errno recorded at the failure point; only the initial `calloc` failure
returns errno directly. -/
theorem customize_post_calloc_eperm (errnoVal : Nat) (g : Int)
    (kc sc : Option (List Nat)) (m1 m2 m3 m4 : Bool) (e : Nat)
    (h : rotn_customize true errnoVal g kc sc m1 m2 m3 m4 = .error e) :
    e = EPERM := by
  unfold rotn_customize at h
  cases hbs : buildShift g (sc.getD []) with
  | none =>
      rw [hbs] at h
      split_ifs at h <;> cases h <;> first | contradiction | rfl
  | some p =>
      obtain ⟨fs, bs⟩ := p
      rw [hbs] at h
      split_ifs at h <;> cases h <;> first | contradiction | rfl

/-- Witness for C9 amended: the secretkey malloc failure path (recorded
errno 12) still returns `EPERM = 1`. -/
theorem customize_post_calloc_eperm_witness : (1 : Nat) = EPERM :=
  customize_post_calloc_eperm 12 0 none (some [65]) true false true true 1 rfl

end RotN
